import Mathlib

/-!
Verification of the pair-tracking and dispatch engine of the
go-filesha-verifier repository, shallowly embedded in Lean 4.

Conventions of the embedding:
* Go strings are Lean `String`s; character-level work happens on `List Char`.
* `time.Time` instants and `time.Duration` values are `Int` nanosecond counts;
  `t.After(u)` is `u < t`, `now.Sub(t) >= d` is `d ≤ now - t`.
* Go `int64` counters are `Int`; counter overflow is not reachable in the
  modelled operation sequences and is not modelled.
* The Go `map[string]*FilePair` is an association list with Go map semantics:
  lookup of the (unique) entry for a key, in-place value update, delete.
  List order stands in for Go's unspecified iteration order.
* A Go function that can panic (out-of-range slicing in
  `AddOrUpdateSHA256File`) returns `Option`, with `none` marking the panic.
* Filesystem effects are explicit: results of moves/deletes are oracle
  arguments, requested routings are returned as `RouteAction` values, and a
  destination directory is the list of file names it contains.
* `strings.ToLower` / `unicode.IsSpace` are modelled on the ASCII/Latin-1
  range, which covers every code point that can influence the verdicts
  proved here (no code point outside that range lowercases into the ASCII
  hex-digit alphabet `0-9a-f`).
-/

namespace FileShaVerifier

/-! ## Go string primitives (strings / unicode packages) -/

/-- `unicode.IsSpace` restricted to the Latin-1 range, exactly the branch Go
takes for one-byte and Latin-1 runes: space, tab, newline, vertical tab,
form feed, carriage return, next line, no-break space. -/
def goIsSpace (c : Char) : Bool :=
  c = ' ' || c = '\t' || c = '\n' || c = Char.ofNat 0x0B || c = Char.ofNat 0x0C ||
  c = '\r' || c = Char.ofNat 0x85 || c = Char.ofNat 0xA0

/-- `unicode.ToLower` on the ASCII range: uppercase ASCII letters gain 32,
everything else is unchanged. -/
def goToLowerChar (c : Char) : Char :=
  if 'A' ≤ c ∧ c ≤ 'Z' then Char.ofNat (c.toNat + 32) else c

/-- `strings.ToLower` on the character list of a string. -/
def goToLower (s : List Char) : List Char :=
  s.map goToLowerChar

/-- A character `encoding/hex.Decode` accepts: `0-9`, `a-f`, `A-F`. -/
def goIsHexDigit (c : Char) : Bool :=
  decide (('0' ≤ c ∧ c ≤ '9') ∨ ('a' ≤ c ∧ c ≤ 'f') ∨ ('A' ≤ c ∧ c ≤ 'F'))

/-- Accumulator-passing splitter behind `goFields`. -/
def goFieldsAux : List Char → List Char → List (List Char)
  | [], acc => if acc.isEmpty then [] else [acc.reverse]
  | c :: cs, acc =>
    if goIsSpace c then
      if acc.isEmpty then goFieldsAux cs [] else acc.reverse :: goFieldsAux cs []
    else goFieldsAux cs (c :: acc)

/-- `strings.Fields`: maximal runs of non-space characters. -/
def goFields (s : List Char) : List (List Char) :=
  goFieldsAux s []

/-- Drop leading white space. -/
def goTrimLeft (s : List Char) : List Char :=
  s.dropWhile goIsSpace

/-- Drop trailing white space. -/
def goTrimRight (s : List Char) : List Char :=
  (s.reverse.dropWhile goIsSpace).reverse

/-- `strings.TrimSpace`. -/
def goTrimSpace (s : List Char) : List Char :=
  goTrimLeft (goTrimRight s)

/-! ## Go path primitives (path/filepath, unix separator) -/

/-- `filepath.Base` on character lists: empty path gives `"."`, trailing
slashes are stripped, the last element is returned, an all-slash path gives
`"/"`. -/
def goBaseChars (p : List Char) : List Char :=
  if p.isEmpty then ['.']
  else
    let q := (p.reverse.dropWhile (· == '/')).reverse
    if q.isEmpty then ['/']
    else (q.reverse.takeWhile (· != '/')).reverse

/-- `filepath.Base` on strings. -/
def goBase (p : String) : String :=
  String.mk (goBaseChars p.data)

/-- `filepath.Ext` of a bare file name (no separators, as used by
`getUniqueFilePath`): the suffix starting at the final dot, empty if the
name has no dot. -/
def goExtChars (name : List Char) : List Char :=
  if name.contains '.' then '.' :: (name.reverse.takeWhile (· != '.')).reverse
  else []

/-- `filepath.Ext` on strings. -/
def goExt (name : String) : String :=
  String.mk (goExtChars name.data)

/-! ## Data model (types from the repository's domain types file) -/

/-- `FilePair` from the domain types: a data file and its `.sha256` file. -/
structure FilePair where
  dataFile : String
  dataFilePath : String
  sha256File : String
  sha256Path : String
  dataSize : Int
  firstSeen : Int
  hasBothFiles : Bool
deriving DecidableEq, Repr

/-- `FileTracker`: the registry map plus the configured retry timeout. -/
structure TrackerState where
  files : List (String × FilePair)
  retryTimeout : Int
deriving DecidableEq, Repr

/-- Go map read `ft.files[k]`: the value stored under `k`, if any. -/
def lookupPair (k : String) : List (String × FilePair) → Option FilePair
  | [] => none
  | e :: l => if e.1 = k then some e.2 else lookupPair k l

/-- In-place mutation of the entry for key `k` (Go writes through the
`*FilePair` pointer held in the map). -/
def updatePair (k : String) (f : FilePair → FilePair) (l : List (String × FilePair)) :
    List (String × FilePair) :=
  l.map (fun e => if e.1 = k then (e.1, f e.2) else e)

/-- The fresh entry `AddOrUpdateDataFile` creates (Go zero values for the
checksum half). -/
def mkDataPair (now : Int) (k path : String) (size : Int) : FilePair :=
  { dataFile := k, dataFilePath := path, sha256File := "", sha256Path := "",
    dataSize := size, firstSeen := now, hasBothFiles := false }

/-- `FileTracker.AddOrUpdateDataFile`: upsert keyed by `filepath.Base` of the
data path; an existing entry only has its path and size refreshed, a new
entry starts with `HasBothFiles = false`. `now` stands for `time.Now()`. -/
def addOrUpdateDataFile (now : Int) (path : String) (size : Int) (s : TrackerState) :
    TrackerState :=
  let k := goBase path
  match lookupPair k s.files with
  | some _ =>
    { s with files := (updatePair k
        (fun pr => { pr with dataFilePath := path, dataSize := size }) s.files) }
  | none => { s with files := s.files ++ [(k, mkDataPair now k path size)] }

/-- The key `AddOrUpdateSHA256File` derives: `filepath.Base` of the checksum
path with its last 7 characters sliced off. `none` when the slice
`sha256File[:len(sha256File)-7]` would panic (base shorter than 7). -/
def shaKey (path : String) : Option String :=
  let shaFile := goBaseChars path.data
  if 7 ≤ shaFile.length then some (String.mk (shaFile.take (shaFile.length - 7)))
  else none

/-- The fresh entry `AddOrUpdateSHA256File` creates (Go zero values for the
data half). -/
def mkShaPair (now : Int) (k shaFile path : String) : FilePair :=
  { dataFile := k, dataFilePath := "", sha256File := shaFile, sha256Path := path,
    dataSize := 0, firstSeen := now, hasBothFiles := false }

/-- `FileTracker.AddOrUpdateSHA256File`: derives the data-file key by slicing
7 characters off the base name (panic, i.e. `none`, if it is shorter); an
existing entry gets its checksum half set and `HasBothFiles := true`, a new
entry starts with an empty data path and `HasBothFiles = false`. -/
def addOrUpdateSHA256File (now : Int) (path : String) (s : TrackerState) :
    Option TrackerState :=
  let shaFile := goBaseChars path.data
  if 7 ≤ shaFile.length then
    let k := String.mk (shaFile.take (shaFile.length - 7))
    match lookupPair k s.files with
    | some _ =>
      some { s with files := (updatePair k
          (fun pr => { pr with sha256File := String.mk shaFile, sha256Path := path,
                               hasBothFiles := true }) s.files) }
    | none =>
      some { s with files := s.files ++ [(k, mkShaPair now k (String.mk shaFile) path)] }
  else none

/-- `FileTracker.MarkBothFilesPresent` (called only by the scanner). -/
def markBothFilesPresent (k : String) (s : TrackerState) : TrackerState :=
  match lookupPair k s.files with
  | some _ =>
    { s with files := updatePair k (fun pr => { pr with hasBothFiles := true }) s.files }
  | none => s

/-- The readiness test of `GetReadyForVerification`: both-present flag set and
both paths non-empty. -/
def readyPair (pr : FilePair) : Bool :=
  pr.hasBothFiles && pr.dataFilePath != "" && pr.sha256Path != ""

/-- `FileTracker.GetReadyForVerification`: copies of all pairs passing
`readyPair`. -/
def getReadyForVerification (s : TrackerState) : List FilePair :=
  (s.files.filter (fun e => readyPair e.2)).map (fun e => e.2)

/-- `FileTracker.GetExpiredFiles`: copies of all pairs with
`now - FirstSeen >= retryTimeout`, with no readiness condition. -/
def getExpiredFiles (now : Int) (s : TrackerState) : List FilePair :=
  (s.files.filter (fun e => decide (s.retryTimeout ≤ now - e.2.firstSeen))).map
    (fun e => e.2)

/-- `FileTracker.Remove`: Go map delete. -/
def removeKey (k : String) (s : TrackerState) : TrackerState :=
  { s with files := s.files.filter (fun e => decide (e.1 ≠ k)) }

/-- `FileTracker.GetPendingCount`. -/
def getPendingCount (s : TrackerState) : Int :=
  s.files.length

/-! ## Registry operation traces -/

/-- One registry call: `recordData` (`AddOrUpdateDataFile`), `recordChecksum`
(`AddOrUpdateSHA256File`) or `remove`, with the `time.Now()` observation
passed explicitly. -/
inductive TrkOp where
  | data (now : Int) (path : String) (size : Int)
  | chk (now : Int) (path : String)
  | rm (key : String)
deriving DecidableEq, Repr

/-- One registry call applied to a state (`none` = the call panicked). -/
def trkStep : TrkOp → TrackerState → Option TrackerState
  | .data now p n, s => some (addOrUpdateDataFile now p n s)
  | .chk now p, s => addOrUpdateSHA256File now p s
  | .rm k, s => some (removeKey k s)

/-- A sequence of registry calls. -/
def runTrk : List TrkOp → TrackerState → Option TrackerState
  | [], s => some s
  | o :: os, s => (trkStep o s).bind (runTrk os)

/-- `NewFileTracker`. -/
def emptyTracker (rt : Int) : TrackerState :=
  { files := [], retryTimeout := rt }

/-- States reachable from a fresh tracker by registry calls. -/
def ReachableTracker (s : TrackerState) : Prop :=
  ∃ rt ops, runTrk ops (emptyTracker rt) = some s

/-! ## sha_verifier embedding -/

/-- `ReadSHA256File` after the file read: parse the checksum-file content.
Trim, reject empty, split into fields, lowercase the first token, demand
exactly 64 characters that `hex.DecodeString` accepts. -/
def readSHA256Content (content : List Char) : Except String (List Char) :=
  let trimmed := goTrimSpace content
  if trimmed.isEmpty then .error "SHA256 file is empty"
  else
    match goFields trimmed with
    | [] => .error "SHA256 file has invalid format"
    | t :: _ =>
      let hash := goToLower t
      if hash.length ≠ 64 then .error "invalid SHA256 hash length"
      else if !(hash.length % 2 == 0 && hash.all goIsHexDigit) then
        .error "invalid SHA256 hash format"
      else .ok hash

/-- `VerifyFile` reduced to its decision: given the checksum-file content and
the digest `ComputeFileSHA256` returned, does verification succeed?
Mirrors the code: a parse error fails, otherwise the lowercased computed and
expected digests must coincide. -/
def verifyFileOk (content : List Char) (computed : List Char) : Bool :=
  match readSHA256Content content with
  | .error _ => false
  | .ok expected => goToLower computed == goToLower expected

/-! ## statistics embedding -/

/-- `StatsTracker`'s counter fields. -/
structure StatsState where
  totalProcessed : Int
  successCount : Int
  failureCount : Int
  pendingCount : Int
  totalDuration : Int
  startTime : Int
deriving DecidableEq, Repr

/-- `NewStatsTracker`. -/
def newStatsTracker (now : Int) : StatsState :=
  { totalProcessed := 0, successCount := 0, failureCount := 0, pendingCount := 0,
    totalDuration := 0, startTime := now }

/-- `StatsTracker.IncrementSuccess`. -/
def incrementSuccess (d : Int) (s : StatsState) : StatsState :=
  { s with successCount := s.successCount + 1, totalProcessed := s.totalProcessed + 1,
           totalDuration := s.totalDuration + d }

/-- `StatsTracker.IncrementFailure`. -/
def incrementFailure (d : Int) (s : StatsState) : StatsState :=
  { s with failureCount := s.failureCount + 1, totalProcessed := s.totalProcessed + 1,
           totalDuration := s.totalDuration + d }

/-- `StatsTracker.SetPendingCount`. -/
def setPendingCount (n : Int) (s : StatsState) : StatsState :=
  { s with pendingCount := n }

/-- `StatsTracker.IncrementPending`. -/
def incrementPending (s : StatsState) : StatsState :=
  { s with pendingCount := s.pendingCount + 1 }

/-- `StatsTracker.DecrementPending` (guarded against going negative). -/
def decrementPending (s : StatsState) : StatsState :=
  if 0 < s.pendingCount then { s with pendingCount := s.pendingCount - 1 } else s

/-- `StatsTracker.Reset`. -/
def resetStats (now : Int) (_s : StatsState) : StatsState :=
  newStatsTracker now

/-- The `Statistics` snapshot type. -/
structure Statistics where
  totalProcessed : Int
  successCount : Int
  failureCount : Int
  pendingCount : Int
  totalDuration : Int
  startTime : Int
deriving DecidableEq, Repr

/-- `StatsTracker.GetStatistics`: field-for-field snapshot. -/
def getStatistics (s : StatsState) : Statistics :=
  { totalProcessed := s.totalProcessed, successCount := s.successCount,
    failureCount := s.failureCount, pendingCount := s.pendingCount,
    totalDuration := s.totalDuration, startTime := s.startTime }

/-- One `StatsTracker` call. -/
inductive StatOp where
  | success (d : Int)
  | failure (d : Int)
  | setPending (n : Int)
  | incPending
  | decPending
  | reset (now : Int)
deriving DecidableEq, Repr

/-- Apply one `StatsTracker` call. -/
def statStep : StatOp → StatsState → StatsState
  | .success d, s => incrementSuccess d s
  | .failure d, s => incrementFailure d s
  | .setPending n, s => setPendingCount n s
  | .incPending, s => incrementPending s
  | .decPending, s => decrementPending s
  | .reset now, s => resetStats now s

/-- A sequence of `StatsTracker` calls. -/
def runStats (ops : List StatOp) (s : StatsState) : StatsState :=
  ops.foldl (fun s o => statStep o s) s

/-! ## worker pool embedding -/

/-- `VerificationJob`. -/
structure VerificationJob where
  filePair : FilePair
  retryDeadline : Int
  bufferSize : Int
deriving DecidableEq, Repr

/-- `VerificationResult` (the fields the handlers consume). -/
structure VerificationResult where
  job : VerificationJob
  success : Bool
  errorMessage : String
  computedHash : String
  expectedHash : String
  duration : Int
  timestamp : Int
deriving DecidableEq, Repr

/-- A file-routing side effect requested from file_operations. -/
inductive RouteAction where
  | moveToDLQ (dataPath sha256Path : String)
  | moveToVerified (dataPath : String)
  | deleteFile (path : String)
deriving DecidableEq, Repr

/-- `WorkerPoolManager.handleSuccess` with the filesystem outcomes passed as
oracles: `moveResult` is what `MoveToVerified` returned, `deleteResult` what
`DeleteFile` on the checksum file returned. A failed move logs, increments
the failure counter and returns with the registry untouched; a successful
move deletes the checksum file (its error only logged), removes the pair and
increments the success counter. -/
def handleSuccess (moveResult : Except String String) (_deleteResult : Except String Unit)
    (result : VerificationResult) (tr : TrackerState) (st : StatsState) :
    TrackerState × StatsState :=
  match moveResult with
  | .error _ => (tr, incrementFailure result.duration st)
  | .ok _ => (removeKey result.job.filePair.dataFile tr, incrementSuccess result.duration st)

/-- `WorkerPoolManager.handleFailure`: `time.Now().After(RetryDeadline)` —
strictly after — selects the DLQ branch (request the move, remove the pair,
increment the failure counter); otherwise nothing changes. The `MoveToDLQ`
error, if any, is only logged, so the branch is oblivious to it. -/
def handleFailure (now : Int) (result : VerificationResult) (tr : TrackerState)
    (st : StatsState) : TrackerState × StatsState × List RouteAction :=
  if result.job.retryDeadline < now then
    (removeKey result.job.filePair.dataFile tr, incrementFailure result.duration st,
      [RouteAction.moveToDLQ result.job.filePair.dataFilePath result.job.filePair.sha256Path])
  else (tr, st, [])

/-! ## coordinator embedding -/

/-- One dispatch tick of `coordinator`: read the ready snapshot, build one job
per ready pair with `retryDeadline = FirstSeen + retryTimeout`, submit the
jobs, publish the pending count. The tick touches no registry entry and
consults no expiry information. -/
def coordinatorTick (retryTimeout bufferSize : Int) (tr : TrackerState) (st : StatsState) :
    TrackerState × StatsState × List VerificationJob :=
  let ready := getReadyForVerification tr
  let jobs := ready.map (fun pr =>
    { filePair := pr, retryDeadline := pr.firstSeen + retryTimeout,
      bufferSize := bufferSize })
  (tr, setPendingCount (getPendingCount tr) st, jobs)

/-! ## file_operations embedding -/

/-- `getUniqueFilePath`, at the level of file names inside one destination
directory (the `filepath.Join(dir, ·)` prefix is elided): stem, underscore,
`os.Getpid()` rendered in decimal, extension. -/
def getUniqueFilePath (pid : Nat) (filename : String) : String :=
  let ext := goExt filename
  let nameWithoutExt := String.mk (filename.data.take (filename.data.length - ext.data.length))
  nameWithoutExt ++ "_" ++ toString pid ++ ext

/-- The destination name `MoveToVerified` (and each half of `MoveToDLQ`)
picks: the plain base name unless a file of that name already exists in the
destination directory, in which case `getUniqueFilePath`. -/
def chooseDestName (existing : List String) (pid : Nat) (filename : String) : String :=
  if existing.contains filename then getUniqueFilePath pid filename else filename

/-- Effect of `os.Rename` on the destination directory contents: the
destination name is present afterwards; an already-present name is
overwritten in place. -/
def renameEffect (existing : List String) (dest : String) : List String :=
  if existing.contains dest then existing else dest :: existing

/-- `MoveToVerified` restricted to its name-selection and directory effect:
returns the chosen destination name and the directory contents after the
move. -/
def moveToVerifiedModel (existing : List String) (pid : Nat) (sourceName : String) :
    String × List String :=
  let dest := chooseDestName existing pid sourceName
  (dest, renameEffect existing dest)

end FileShaVerifier

namespace FileShaVerifier

/-! ## Concrete states used by individual claims -/

/-- Scenario C's pair: a data file tracked with no checksum half. -/
def scenarioCPair : FilePair :=
  { dataFile := "c.bin", dataFilePath := "/src/c.bin", sha256File := "", sha256Path := "",
    dataSize := 8, firstSeen := 0, hasBothFiles := false }

/-- Scenario C's registry: only `c.bin`, retry timeout 5. -/
def scenarioCState : TrackerState :=
  { files := [("c.bin", scenarioCPair)], retryTimeout := 5 }

/-- A ready pair used by the worker-handler claims. -/
def boundaryPair : FilePair :=
  { dataFile := "e.bin", dataFilePath := "/src/e.bin", sha256File := "e.bin.sha256",
    sha256Path := "/src/e.bin.sha256", dataSize := 4, firstSeen := 0, hasBothFiles := true }

/-- A failed-verification result whose job has retry deadline 100. -/
def boundaryResult : VerificationResult :=
  { job := { filePair := boundaryPair, retryDeadline := 100, bufferSize := 4096 },
    success := false, errorMessage := "hash mismatch", computedHash := "",
    expectedHash := "", duration := 3, timestamp := 100 }

/-- The registry holding `boundaryPair`. -/
def boundaryTracker : TrackerState :=
  { files := [("e.bin", boundaryPair)], retryTimeout := 100 }

/-- Another ready pair, for the success-handler claim. -/
def routedPair : FilePair :=
  { dataFile := "f.bin", dataFilePath := "/src/f.bin", sha256File := "f.bin.sha256",
    sha256Path := "/src/f.bin.sha256", dataSize := 16, firstSeen := 0, hasBothFiles := true }

/-- A successful-verification result for `routedPair`. -/
def routedResult : VerificationResult :=
  { job := { filePair := routedPair, retryDeadline := 600, bufferSize := 4096 },
    success := true, errorMessage := "", computedHash := "", expectedHash := "",
    duration := 3, timestamp := 50 }

/-- The registry holding `routedPair`. -/
def routedTracker : TrackerState :=
  { files := [("f.bin", routedPair)], retryTimeout := 600 }

/-- C1: a pair tracked only as a data file and past its deadline is reported by
the expiry scan (which is indeed not gated on both-present), yet a coordinator
tick routes nothing to dead-letter storage and leaves the registry unchanged:
the reaping the claim describes does not exist — `GetExpiredFiles` has no
caller. -/
theorem coordinator_tick_never_reaps_expired :
    ((getExpiredFiles 5 scenarioCState).map (fun pr => pr.dataFile) = ["c.bin"]
      ∧ scenarioCPair.hasBothFiles = false)
    ∧ (∀ st : StatsState,
        (coordinatorTick 5 4096 scenarioCState st).1 = scenarioCState
        ∧ (coordinatorTick 5 4096 scenarioCState st).2.2 = [])
    ∧ lookupPair "c.bin" scenarioCState.files = some scenarioCPair :=
  ⟨by decide, fun _ => ⟨rfl, rfl⟩, by decide⟩

/-- C8: with the destination directory already holding `a.bin` and `a_42.bin`
(the latter produced by an earlier collision move of the same process, pid 42),
moving another `a.bin` picks destination `a_42.bin` again — a name that
already exists — so the existing file is overwritten: `getUniqueFilePath`
appends the constant process id, not a fresh timestamp. -/
theorem repeated_collision_overwrites :
    (moveToVerifiedModel ["a.bin"] 42 "a.bin").1 = "a_42.bin"
    ∧ (moveToVerifiedModel ["a.bin"] 42 "a.bin").2 = ["a_42.bin", "a.bin"]
    ∧ (moveToVerifiedModel ["a_42.bin", "a.bin"] 42 "a.bin").1 = "a_42.bin"
    ∧ List.contains ["a_42.bin", "a.bin"] "a_42.bin" = true := by decide

/-- C2 counterexample: two `recordChecksum` calls with the same path, from an
empty registry, leave a pair with both-present = true and an empty data
path — refuting the claimed reconciliation invariant. -/
theorem bothPresent_with_empty_dataPath :
    ((addOrUpdateSHA256File 0 "b.zip.sha256" (emptyTracker 5)).bind
        (addOrUpdateSHA256File 0 "b.zip.sha256")).map
      (fun s => (lookupPair "b.zip" s.files).map
        (fun pr => (pr.hasBothFiles, pr.dataFilePath)))
      = some (some (true, "")) := by decide

/-- C6 counterexample: `recordChecksum` is not idempotent on a fresh key —
the first call leaves both-present = false, the repeated call flips it to
true, so calling twice differs from calling once. -/
theorem recordChecksum_not_idempotent_fresh :
    ((addOrUpdateSHA256File 0 "a.zip.sha256" (emptyTracker 5)).bind
        (addOrUpdateSHA256File 0 "a.zip.sha256")).map
      (fun s => (lookupPair "a.zip" s.files).map (fun pr => pr.hasBothFiles))
      = some (some true)
    ∧ (addOrUpdateSHA256File 0 "a.zip.sha256" (emptyTracker 5)).map
      (fun s => (lookupPair "a.zip" s.files).map (fun pr => pr.hasBothFiles))
      = some (some false) := by decide

/-- C5 counterexample: recording the checksum half before the data half leaves
the pair outside `readyForVerification()` even though both halves are
recorded with non-empty paths — both-present is never set in this order. -/
theorem checksum_first_pair_not_ready :
    (addOrUpdateSHA256File 0 "d.zip.sha256" (emptyTracker 5)).map
      (fun s => getReadyForVerification (addOrUpdateDataFile 1 "d.zip" 8 s)) = some []
    ∧ (addOrUpdateSHA256File 0 "d.zip.sha256" (emptyTracker 5)).map
      (fun s => (lookupPair "d.zip" (addOrUpdateDataFile 1 "d.zip" 8 s).files).map
        (fun pr => (pr.dataFilePath, pr.sha256Path, pr.hasBothFiles)))
      = some (some ("d.zip", "d.zip.sha256", false)) := by decide

/-- C4 counterexample: at the boundary instant `now = retryDeadline` the
worker takes the retry branch — registry and counters untouched, no
dead-letter routing — because `time.Now().After` is strict; the claim
required the dead-letter branch here. -/
theorem retry_boundary_takes_retry_branch :
    handleFailure 100 boundaryResult boundaryTracker (newStatsTracker 0)
      = (boundaryTracker, newStatsTracker 0, [])
    ∧ (lookupPair "e.bin" boundaryTracker.files).isSome = true := by decide

/-- C3 counterexample: when `MoveToVerified` fails after a successful
verification, the worker leaves the pair in the registry, leaves the success
counter untouched and increments the failure counter — refuting "always
removes the pair and increments the success counter". -/
theorem success_move_error_keeps_pair :
    handleSuccess (.error "permission denied") (.ok ()) routedResult routedTracker
        (newStatsTracker 0)
      = (routedTracker, incrementFailure 3 (newStatsTracker 0))
    ∧ (lookupPair "f.bin" routedTracker.files).isSome = true
    ∧ (incrementFailure 3 (newStatsTracker 0)).successCount = 0 := by decide

end FileShaVerifier

namespace FileShaVerifier

/-! ## Association-list lemmas for the registry map -/

theorem lookupPair_updatePair_self (k : String) (f : FilePair → FilePair)
    (l : List (String × FilePair)) :
    lookupPair k (updatePair k f l) = (lookupPair k l).map f := by
  induction l with
  | nil => rfl
  | cons e l ih =>
    by_cases he : e.1 = k
    · simp [updatePair, lookupPair, he]
    · simp only [updatePair, List.map_cons, if_neg he, lookupPair]
      simpa [updatePair] using ih

theorem lookupPair_append_of_none (k : String) (pr : FilePair)
    (l : List (String × FilePair)) (h : lookupPair k l = none) :
    lookupPair k (l ++ [(k, pr)]) = some pr := by
  induction l with
  | nil => simp [lookupPair]
  | cons e l ih =>
    by_cases he : e.1 = k
    · simp [lookupPair, he] at h
    · simp only [lookupPair, if_neg he] at h
      simpa [lookupPair, he] using ih h

theorem lookupPair_eq_none_iff (k : String) (l : List (String × FilePair)) :
    lookupPair k l = none ↔ ∀ e ∈ l, e.1 ≠ k := by
  induction l with
  | nil => simp [lookupPair]
  | cons e l ih =>
    by_cases he : e.1 = k
    · simp only [lookupPair, if_pos he]
      constructor
      · intro h; cases h
      · intro h; exact absurd he (h e (List.mem_cons_self e l))
    · simp only [lookupPair, if_neg he]
      rw [ih]
      constructor
      · intro h x hx
        rcases List.mem_cons.mp hx with rfl | hx'
        · exact he
        · exact h x hx'
      · intro h x hx
        exact h x (List.mem_cons_of_mem _ hx)

theorem updatePair_of_no_key (k : String) (f : FilePair → FilePair)
    (l : List (String × FilePair)) (h : ∀ e ∈ l, e.1 ≠ k) :
    updatePair k f l = l := by
  induction l with
  | nil => rfl
  | cons e l ih =>
    have he : ¬ e.1 = k := h e (List.mem_cons_self e l)
    simp only [updatePair, List.map_cons, if_neg he]
    have ht := ih (fun x hx => h x (List.mem_cons_of_mem _ hx))
    simpa [updatePair] using ht

theorem updatePair_updatePair (k : String) (f : FilePair → FilePair)
    (l : List (String × FilePair)) (hf : ∀ x, f (f x) = f x) :
    updatePair k f (updatePair k f l) = updatePair k f l := by
  simp only [updatePair, List.map_map]
  refine List.map_congr_left ?_
  intro a _
  by_cases he : a.1 = k
  · simp [Function.comp, he, hf]
  · simp [Function.comp, he]

theorem lookupPair_removeKey (k : String) (s : TrackerState) :
    lookupPair k (removeKey k s).files = none := by
  rcases s with ⟨l, rt⟩
  simp only [removeKey]
  induction l with
  | nil => rfl
  | cons e l ih =>
    by_cases he : e.1 = k
    · simpa [List.filter_cons, he] using ih
    · simpa [List.filter_cons, he, lookupPair] using ih

theorem mem_of_lookupPair (k : String) (pr : FilePair) (l : List (String × FilePair))
    (h : lookupPair k l = some pr) : (k, pr) ∈ l := by
  induction l with
  | nil => cases h
  | cons e l ih =>
    by_cases he : e.1 = k
    · simp only [lookupPair, if_pos he] at h
      rcases e with ⟨a, b⟩
      cases h
      cases he
      exact List.mem_cons_self _ _
    · simp only [lookupPair, if_neg he] at h
      exact List.mem_cons_of_mem _ (ih h)

theorem mem_getReady_of_mem (k : String) (pr : FilePair) (s : TrackerState)
    (hmem : (k, pr) ∈ s.files) (hready : readyPair pr = true) :
    pr ∈ getReadyForVerification s := by
  unfold getReadyForVerification
  exact List.mem_map_of_mem _ (List.mem_filter.mpr ⟨hmem, hready⟩)

end FileShaVerifier

namespace FileShaVerifier

/-- The state after `recordData("a.tar", 9)` on a fresh tracker. -/
def idemDataS : TrackerState :=
  { files := [("a.tar",
      { dataFile := "a.tar", dataFilePath := "a.tar", sha256File := "", sha256Path := "",
        dataSize := 9, firstSeen := 0, hasBothFiles := false })],
    retryTimeout := 5 }

/-- The pair stored in `idemDataS`. -/
def idemPr : FilePair :=
  { dataFile := "a.tar", dataFilePath := "a.tar", sha256File := "", sha256Path := "",
    dataSize := 9, firstSeen := 0, hasBothFiles := false }

/-- `idemDataS` after `recordChecksum("a.tar.sha256")`. -/
def idemS1 : TrackerState :=
  { files := [("a.tar",
      { dataFile := "a.tar", dataFilePath := "a.tar", sha256File := "a.tar.sha256",
        sha256Path := "a.tar.sha256", dataSize := 9, firstSeen := 0, hasBothFiles := true })],
    retryTimeout := 5 }

/-- C6 (amended): `recordData` is idempotent in every state; `recordChecksum`
is idempotent in every state whose registry already holds its derived key.
(On a fresh key it is not: the repeated call flips both-present to true, see
the counterexample.) -/
theorem record_upserts_idempotence :
    (∀ (now now' n : Int) (p : String) (s : TrackerState),
        addOrUpdateDataFile now' p n (addOrUpdateDataFile now p n s)
          = addOrUpdateDataFile now p n s)
    ∧ (∀ (now now' : Int) (p k : String) (s s₁ : TrackerState) (pr : FilePair),
        shaKey p = some k → lookupPair k s.files = some pr →
        addOrUpdateSHA256File now p s = some s₁ →
        addOrUpdateSHA256File now' p s₁ = some s₁) := by
  constructor
  · intro now now' n p s
    simp only [addOrUpdateDataFile]
    cases h : lookupPair (goBase p) s.files with
    | some pr =>
      simp only [lookupPair_updatePair_self, h, Option.map_some']
      congr 1
      exact updatePair_updatePair _ _ _ (fun x => rfl)
    | none =>
      simp only [lookupPair_append_of_none _ _ _ h]
      congr 1
      rw [updatePair, List.map_append]
      have h1 : updatePair (goBase p) (fun pr =>
          { pr with dataFilePath := p, dataSize := n }) s.files = s.files :=
        updatePair_of_no_key _ _ _ ((lookupPair_eq_none_iff _ _).mp h)
      rw [updatePair] at h1
      rw [h1]
      simp [mkDataPair]
  · intro now now' p k s s₁ pr hk hlk h1
    simp only [shaKey] at hk
    simp only [addOrUpdateSHA256File] at h1 ⊢
    by_cases hlen : 7 ≤ (goBaseChars p.data).length
    · rw [if_pos hlen] at h1 ⊢
      simp only [if_pos hlen] at hk
      have hkk : String.mk ((goBaseChars p.data).take ((goBaseChars p.data).length - 7)) = k := by
        injection hk
      rw [hkk] at h1 ⊢
      rw [hlk] at h1
      have hs1 : s₁ = { s with files := (updatePair k
          (fun pr => { pr with sha256File := String.mk (goBaseChars p.data),
                               sha256Path := p, hasBothFiles := true }) s.files) } := by
        injection h1 with h1e
        exact h1e.symm
      rw [hs1]
      simp only [lookupPair_updatePair_self, hlk, Option.map_some']
      congr 2
      exact updatePair_updatePair _ _ _ (fun x => rfl)
    · rw [if_neg hlen] at h1
      cases h1

/-- C6 witness: the idempotence theorem applied at a concrete registry —
`recordData` twice on a fresh tracker, and `recordChecksum` repeated after
the key already exists. -/
theorem record_upserts_idempotence_witness :
    addOrUpdateDataFile 1 "a.tar" 9 (addOrUpdateDataFile 0 "a.tar" 9 (emptyTracker 5))
      = addOrUpdateDataFile 0 "a.tar" 9 (emptyTracker 5)
    ∧ addOrUpdateSHA256File 3 "a.tar.sha256" idemS1 = some idemS1 :=
  ⟨record_upserts_idempotence.1 0 1 9 "a.tar" (emptyTracker 5),
   record_upserts_idempotence.2 2 3 "a.tar.sha256" "a.tar" idemDataS idemS1 idemPr
     (by decide) (by decide) (by decide)⟩

end FileShaVerifier

namespace FileShaVerifier

/-! ## Invariants of the registry under recorded sightings -/

theorem shaKey_ne_empty (q k : String) (hk : shaKey q = some k) : q ≠ "" := by
  intro hq
  subst hq
  have : shaKey "" = none := rfl
  rw [this] at hk
  cases hk

theorem shaKey_length (q : String) (k : String) (hk : shaKey q = some k) :
    7 ≤ (goBaseChars q.data).length := by
  by_cases h : 7 ≤ (goBaseChars q.data).length
  · exact h
  · simp only [shaKey, if_neg h] at hk
    exact Option.noConfusion hk

/-- After `recordData(p, n)` the entry for `goBase p` exists and carries data
path `p`. -/
theorem lookupPair_addDataFile_self (now n : Int) (p : String) (s : TrackerState) :
    ∃ pr, lookupPair (goBase p) (addOrUpdateDataFile now p n s).files = some pr ∧
      pr.dataFilePath = p := by
  simp only [addOrUpdateDataFile]
  cases hl : lookupPair (goBase p) s.files with
  | some pr0 =>
    refine ⟨{ pr0 with dataFilePath := p, dataSize := n }, ?_, rfl⟩
    simp [lookupPair_updatePair_self, hl]
  | none =>
    refine ⟨mkDataPair now (goBase p) p n, ?_, rfl⟩
    simpa using lookupPair_append_of_none _ _ _ hl

/-- A `recordChecksum(q)` that finds its derived key present rewrites exactly
that entry: checksum half set to `q`, both-present set. -/
theorem addSHA_lookup_some (now : Int) (q k : String) (s s' : TrackerState) (pr : FilePair)
    (hk : shaKey q = some k) (hl : lookupPair k s.files = some pr)
    (h : addOrUpdateSHA256File now q s = some s') :
    lookupPair k s'.files =
      some { pr with sha256File := goBase q, sha256Path := q, hasBothFiles := true } := by
  have hlen := shaKey_length q k hk
  simp only [shaKey, if_pos hlen] at hk
  simp only [addOrUpdateSHA256File, if_pos hlen] at h
  have hkk : String.mk ((goBaseChars q.data).take ((goBaseChars q.data).length - 7)) = k := by
    injection hk
  rw [hkk, hl] at h
  injection h with h
  subst h
  simp [lookupPair_updatePair_self, hl, goBase]

/-- Every entry of a state reached by registry calls satisfies: both-present
implies a non-empty checksum path. One step. -/
theorem entryInv_trkStep (o : TrkOp) (s s' : TrackerState)
    (h : trkStep o s = some s')
    (hinv : ∀ e ∈ s.files, e.2.hasBothFiles = true → e.2.sha256Path ≠ "") :
    ∀ e ∈ s'.files, e.2.hasBothFiles = true → e.2.sha256Path ≠ "" := by
  cases o with
  | data now p n =>
    simp only [trkStep] at h
    injection h with h
    subst h
    intro e he
    simp only [addOrUpdateDataFile] at he
    cases hl : lookupPair (goBase p) s.files with
    | some pr0 =>
      rw [hl] at he
      simp only [updatePair] at he
      obtain ⟨a, ha, rfl⟩ := List.mem_map.mp he
      by_cases hak : a.1 = goBase p
      · simp only [if_pos hak]
        exact hinv a ha
      · simp only [if_neg hak]
        exact hinv a ha
    | none =>
      rw [hl] at he
      rcases List.mem_append.mp he with he' | he'
      · exact hinv e he'
      · rcases List.mem_singleton.mp he' with rfl
        intro hb
        cases hb
  | chk now q =>
    simp only [trkStep] at h
    have hq : q ≠ "" := by
      intro hq
      subst hq
      have : addOrUpdateSHA256File now "" s = none := rfl
      rw [this] at h
      cases h
    by_cases hlen : 7 ≤ (goBaseChars q.data).length
    · simp only [addOrUpdateSHA256File, if_pos hlen] at h
      cases hl : lookupPair (String.mk ((goBaseChars q.data).take
          ((goBaseChars q.data).length - 7))) s.files with
      | some pr0 =>
        rw [hl] at h
        injection h with h
        subst h
        intro e he
        simp only [updatePair] at he
        obtain ⟨a, ha, rfl⟩ := List.mem_map.mp he
        by_cases hak : a.1 = String.mk ((goBaseChars q.data).take
            ((goBaseChars q.data).length - 7))
        · simp only [if_pos hak]
          intro _
          exact hq
        · simp only [if_neg hak]
          exact hinv a ha
      | none =>
        rw [hl] at h
        injection h with h
        subst h
        intro e he
        rcases List.mem_append.mp he with he' | he'
        · exact hinv e he'
        · rcases List.mem_singleton.mp he' with rfl
          intro hb
          cases hb
    · simp only [addOrUpdateSHA256File, if_neg hlen] at h
      cases h
  | rm k =>
    simp only [trkStep] at h
    injection h with h
    subst h
    intro e he
    exact hinv e (List.mem_of_mem_filter he)

/-- The entry invariant carried along a whole call sequence. -/
theorem entryInv_runTrk (ops : List TrkOp) :
    ∀ s s', runTrk ops s = some s' →
      (∀ e ∈ s.files, e.2.hasBothFiles = true → e.2.sha256Path ≠ "") →
      ∀ e ∈ s'.files, e.2.hasBothFiles = true → e.2.sha256Path ≠ "" := by
  induction ops with
  | nil =>
    intro s s' h
    injection h with h
    subst h
    exact id
  | cons o os ih =>
    intro s s' h hinv
    simp only [runTrk] at h
    cases ho : trkStep o s with
    | none => rw [ho] at h; cases h
    | some s₁ =>
      rw [ho] at h
      exact ih s₁ s' h (entryInv_trkStep o s s₁ ho hinv)

/-- C2 (amended): in every reachable registry state, a pair with
both-present = true has a non-empty checksum path; and when the data half is
recorded before the checksum half, the pair is reconciled to both-present
with both paths non-empty. (Both-present does not guarantee a non-empty data
path in general — see the counterexample.) -/
theorem bothPresent_amended :
    (∀ s : TrackerState, ReachableTracker s →
        ∀ k pr, lookupPair k s.files = some pr → pr.hasBothFiles = true →
          pr.sha256Path ≠ "")
    ∧ (∀ (now now' n : Int) (p q : String) (s s' : TrackerState),
        p ≠ "" → shaKey q = some (goBase p) →
        addOrUpdateSHA256File now' q (addOrUpdateDataFile now p n s) = some s' →
        ∃ pr, lookupPair (goBase p) s'.files = some pr ∧ pr.hasBothFiles = true ∧
          pr.dataFilePath ≠ "" ∧ pr.sha256Path ≠ "") := by
  constructor
  · rintro s ⟨rt, ops, hrun⟩ k pr hl hb
    have hinv := entryInv_runTrk ops (emptyTracker rt) s hrun (by intro e he; cases he)
    exact hinv (k, pr) (mem_of_lookupPair _ _ _ hl) hb
  · intro now now' n p q s s' hp hq hstep
    obtain ⟨pr0, hl0, hdp⟩ := lookupPair_addDataFile_self now n p s
    have hlook := addSHA_lookup_some now' q (goBase p) _ s' pr0 hq hl0 hstep
    refine ⟨_, hlook, rfl, ?_, shaKey_ne_empty q (goBase p) hq⟩
    show pr0.dataFilePath ≠ ""
    rw [hdp]
    exact hp

/-- The registry state reached by `recordData("g.bin", 1)` then
`recordChecksum("g.bin.sha256")` on a fresh tracker. -/
def c2ReachedS : TrackerState :=
  { files := [("g.bin",
      { dataFile := "g.bin", dataFilePath := "g.bin", sha256File := "g.bin.sha256",
        sha256Path := "g.bin.sha256", dataSize := 1, firstSeen := 0, hasBothFiles := true })],
    retryTimeout := 9 }

/-- The pair stored in `c2ReachedS`. -/
def c2ReachedPr : FilePair :=
  { dataFile := "g.bin", dataFilePath := "g.bin", sha256File := "g.bin.sha256",
    sha256Path := "g.bin.sha256", dataSize := 1, firstSeen := 0, hasBothFiles := true }

/-- The state reached from a fresh tracker by `recordData("g2.bin", 4)` then
`recordChecksum("g2.bin.sha256")`. -/
def c2Step2S : TrackerState :=
  { files := [("g2.bin",
      { dataFile := "g2.bin", dataFilePath := "g2.bin", sha256File := "g2.bin.sha256",
        sha256Path := "g2.bin.sha256", dataSize := 4, firstSeen := 0, hasBothFiles := true })],
    retryTimeout := 3 }

/-- C2 witness: the amended invariant applied at a concrete reachable state,
and the data-then-checksum reconciliation at concrete paths. -/
theorem bothPresent_amended_witness :
    c2ReachedPr.sha256Path ≠ ""
    ∧ ∃ pr, lookupPair (goBase "g2.bin") c2Step2S.files = some pr ∧
        pr.hasBothFiles = true ∧ pr.dataFilePath ≠ "" ∧ pr.sha256Path ≠ "" := by
  constructor
  · exact bothPresent_amended.1 c2ReachedS
      ⟨9, [TrkOp.data 0 "g.bin" 1, TrkOp.chk 1 "g.bin.sha256"], by decide⟩
      "g.bin" c2ReachedPr (by decide) (by decide)
  · exact bothPresent_amended.2 0 1 4 "g2.bin" "g2.bin.sha256" (emptyTracker 3) c2Step2S
      (by decide) (by decide) (by decide)

end FileShaVerifier

namespace FileShaVerifier

/-- C3 (amended): after a successful verification the pair is removed and the
success counter incremented exactly when the move to verified storage
succeeds — regardless of the checksum-file deletion outcome; when the move
itself fails, the pair stays in the registry, the success counter is
untouched and the failure counter is incremented instead. -/
theorem handleSuccess_outcome :
    (∀ (np : String) (delRes : Except String Unit) (result : VerificationResult)
        (tr : TrackerState) (st : StatsState),
        handleSuccess (.ok np) delRes result tr st
          = (removeKey result.job.filePair.dataFile tr, incrementSuccess result.duration st)
        ∧ lookupPair result.job.filePair.dataFile
            (handleSuccess (.ok np) delRes result tr st).1.files = none
        ∧ (handleSuccess (.ok np) delRes result tr st).2.successCount = st.successCount + 1)
    ∧ (∀ (e : String) (delRes : Except String Unit) (result : VerificationResult)
        (tr : TrackerState) (st : StatsState),
        handleSuccess (.error e) delRes result tr st
          = (tr, incrementFailure result.duration st)
        ∧ (handleSuccess (.error e) delRes result tr st).2.successCount = st.successCount
        ∧ (handleSuccess (.error e) delRes result tr st).2.failureCount
            = st.failureCount + 1) := by
  constructor
  · intro np delRes result tr st
    exact ⟨rfl, lookupPair_removeKey _ _, rfl⟩
  · intro e delRes result tr st
    exact ⟨rfl, rfl, rfl⟩

/-- C4 (amended): on a failed verification the worker dead-letters exactly
when `now` is strictly after the retry deadline: the DLQ move is requested,
the pair is removed and the failure counter incremented; when
`now ≤ retryDeadline` — the boundary instant included — nothing changes. -/
theorem handleFailure_dichotomy :
    ∀ (now : Int) (result : VerificationResult) (tr : TrackerState) (st : StatsState),
      (result.job.retryDeadline < now →
        handleFailure now result tr st
          = (removeKey result.job.filePair.dataFile tr, incrementFailure result.duration st,
             [RouteAction.moveToDLQ result.job.filePair.dataFilePath
                result.job.filePair.sha256Path])
        ∧ lookupPair result.job.filePair.dataFile
            (handleFailure now result tr st).1.files = none
        ∧ (handleFailure now result tr st).2.1.failureCount = st.failureCount + 1)
      ∧ (now ≤ result.job.retryDeadline →
        handleFailure now result tr st = (tr, st, [])) := by
  intro now result tr st
  constructor
  · intro h
    refine ⟨?_, ?_, ?_⟩
    · simp only [handleFailure, if_pos h]
    · simp only [handleFailure, if_pos h]
      exact lookupPair_removeKey _ _
    · simp only [handleFailure, if_pos h]
      rfl
  · intro h
    simp only [handleFailure, if_neg (not_lt.mpr h)]

/-- C4 witness: the dichotomy applied one nanosecond after the deadline (DLQ
branch) and one nanosecond before it (retry branch). -/
theorem handleFailure_dichotomy_witness :
    (handleFailure 101 boundaryResult boundaryTracker (newStatsTracker 0)
        = (removeKey boundaryResult.job.filePair.dataFile boundaryTracker,
           incrementFailure boundaryResult.duration (newStatsTracker 0),
           [RouteAction.moveToDLQ boundaryResult.job.filePair.dataFilePath
              boundaryResult.job.filePair.sha256Path])
      ∧ lookupPair boundaryResult.job.filePair.dataFile
          (handleFailure 101 boundaryResult boundaryTracker (newStatsTracker 0)).1.files = none
      ∧ (handleFailure 101 boundaryResult boundaryTracker (newStatsTracker 0)).2.1.failureCount
          = (newStatsTracker 0).failureCount + 1)
    ∧ handleFailure 99 boundaryResult boundaryTracker (newStatsTracker 0)
        = (boundaryTracker, newStatsTracker 0, []) :=
  ⟨(handleFailure_dichotomy 101 boundaryResult boundaryTracker (newStatsTracker 0)).1
      (by decide),
   (handleFailure_dichotomy 99 boundaryResult boundaryTracker (newStatsTracker 0)).2
      (by decide)⟩

/-! ## Statistics invariant -/

/-- The counter invariant of `StatsTracker`. -/
def StatsInv (s : StatsState) : Prop :=
  s.totalProcessed = s.successCount + s.failureCount
  ∧ 0 ≤ s.totalProcessed ∧ 0 ≤ s.successCount ∧ 0 ≤ s.failureCount

/-- Every `StatsTracker` operation preserves the counter invariant. -/
theorem statsInv_step (o : StatOp) (s : StatsState) (h : StatsInv s) :
    StatsInv (statStep o s) := by
  obtain ⟨h1, h2, h3, h4⟩ := h
  cases o with
  | success d =>
    refine ⟨?_, ?_, ?_, ?_⟩ <;> simp [statStep, incrementSuccess] <;> omega
  | failure d =>
    refine ⟨?_, ?_, ?_, ?_⟩ <;> simp [statStep, incrementFailure] <;> omega
  | setPending n =>
    exact ⟨h1, h2, h3, h4⟩
  | incPending =>
    exact ⟨h1, h2, h3, h4⟩
  | decPending =>
    simp only [statStep, decrementPending]
    split
    · exact ⟨h1, h2, h3, h4⟩
    · exact ⟨h1, h2, h3, h4⟩
  | reset now =>
    refine ⟨?_, ?_, ?_, ?_⟩ <;> simp [statStep, resetStats, newStatsTracker]

/-- The counter invariant along a whole operation sequence. -/
theorem statsInv_run (ops : List StatOp) :
    ∀ s : StatsState, StatsInv s → StatsInv (runStats ops s) := by
  induction ops with
  | nil => intro s h; exact h
  | cons o os ih =>
    intro s h
    simp only [runStats, List.foldl_cons]
    exact ih _ (statsInv_step o s h)

/-- C10: after any sequence of `StatsTracker` operations from a fresh tracker,
`totalProcessed = successCount + failureCount` with all three non-negative,
and the `GetStatistics` snapshot satisfies the same equation. -/
theorem stats_counters_reconcile :
    ∀ (t0 : Int) (ops : List StatOp),
      (runStats ops (newStatsTracker t0)).totalProcessed
        = (runStats ops (newStatsTracker t0)).successCount
          + (runStats ops (newStatsTracker t0)).failureCount
      ∧ 0 ≤ (runStats ops (newStatsTracker t0)).totalProcessed
      ∧ 0 ≤ (runStats ops (newStatsTracker t0)).successCount
      ∧ 0 ≤ (runStats ops (newStatsTracker t0)).failureCount
      ∧ (getStatistics (runStats ops (newStatsTracker t0))).totalProcessed
        = (getStatistics (runStats ops (newStatsTracker t0))).successCount
          + (getStatistics (runStats ops (newStatsTracker t0))).failureCount := by
  intro t0 ops
  have h := statsInv_run ops (newStatsTracker t0)
    ⟨rfl, le_refl 0, le_refl 0, le_refl 0⟩
  obtain ⟨h1, h2, h3, h4⟩ := h
  exact ⟨h1, h2, h3, h4, h1⟩

end FileShaVerifier

namespace FileShaVerifier

/-- C9: `recordChecksum` succeeds exactly for paths whose base name has at
least 7 characters — the unconditional slice `sha256File[:len-7]` panics on a
shorter base — and a file named exactly `.sha256` is tracked under the
empty-string key. -/
theorem recordChecksum_totality :
    (∀ (now : Int) (p : String) (s : TrackerState),
        7 ≤ (goBase p).length → (addOrUpdateSHA256File now p s).isSome = true)
    ∧ (∀ (now : Int) (p : String) (s : TrackerState),
        (goBase p).length < 7 → addOrUpdateSHA256File now p s = none)
    ∧ shaKey ".sha256" = some ""
    ∧ (∀ now rt : Int,
        addOrUpdateSHA256File now ".sha256" (emptyTracker rt)
          = some { files := [("", mkShaPair now "" ".sha256" ".sha256")], retryTimeout := rt }
        ∧ (lookupPair ""
            [(("" : String), mkShaPair now "" ".sha256" ".sha256")]).isSome = true) := by
  refine ⟨?_, ?_, rfl, ?_⟩
  · intro now p s h
    have h' : 7 ≤ (goBaseChars p.data).length := h
    simp only [addOrUpdateSHA256File, if_pos h']
    cases hl : lookupPair (String.mk ((goBaseChars p.data).take
        ((goBaseChars p.data).length - 7))) s.files <;> rfl
  · intro now p s h
    have h' : ¬ 7 ≤ (goBaseChars p.data).length := not_le.mpr h
    simp only [addOrUpdateSHA256File, if_neg h']
  · intro now rt
    exact ⟨rfl, rfl⟩

/-- C9 witness: the totality dichotomy at concrete paths — a 9-character base
succeeds, a 1-character base panics. -/
theorem recordChecksum_totality_witness :
    (addOrUpdateSHA256File 0 "ok.sha256" (emptyTracker 1)).isSome = true
    ∧ addOrUpdateSHA256File 0 "x" (emptyTracker 1) = none :=
  ⟨recordChecksum_totality.1 0 "ok.sha256" (emptyTracker 1) (by decide),
   recordChecksum_totality.2.1 0 "x" (emptyTracker 1) (by decide)⟩

end FileShaVerifier

namespace FileShaVerifier

/-! ## Readiness persistence under benign registry calls -/

theorem lookupPair_updatePair_ne (k k0 : String) (f : FilePair → FilePair)
    (l : List (String × FilePair)) (hne : k ≠ k0) :
    lookupPair k (updatePair k0 f l) = lookupPair k l := by
  induction l with
  | nil => rfl
  | cons e l ih =>
    by_cases he : e.1 = k0
    · have hek : ¬ e.1 = k := by rw [he]; exact fun h => hne h.symm
      simp only [updatePair, List.map_cons, if_pos he, lookupPair]
      rw [if_neg (by simpa using hek), if_neg hek]
      simpa [updatePair] using ih
    · simp only [updatePair, List.map_cons, if_neg he, lookupPair]
      by_cases hek : e.1 = k
      · rw [if_pos hek, if_pos hek]
      · rw [if_neg hek, if_neg hek]
        simpa [updatePair] using ih

theorem lookupPair_append_left (k : String) (pr : FilePair)
    (l l' : List (String × FilePair)) (h : lookupPair k l = some pr) :
    lookupPair k (l ++ l') = some pr := by
  induction l with
  | nil => cases h
  | cons e l ih =>
    by_cases he : e.1 = k
    · simp only [lookupPair, if_pos he] at h
      simp only [List.cons_append, lookupPair, if_pos he]
      exact h
    · simp only [lookupPair, if_neg he] at h
      simp only [List.cons_append, lookupPair, if_neg he]
      exact ih h

theorem lookupPair_filter_ne (k k' : String) (l : List (String × FilePair))
    (hne : k ≠ k') :
    lookupPair k (l.filter (fun e => decide (e.1 ≠ k'))) = lookupPair k l := by
  induction l with
  | nil => rfl
  | cons e l ih =>
    by_cases he : e.1 = k'
    · have hek : ¬ e.1 = k := by rw [he]; exact fun h => hne h.symm
      simp only [List.filter_cons, he]
      rw [if_neg (by simp)]
      rw [lookupPair, if_neg hek]
      exact ih
    · simp only [List.filter_cons]
      rw [if_pos (by simpa using he)]
      by_cases hek : e.1 = k
      · rw [lookupPair, if_pos hek, lookupPair, if_pos hek]
      · rw [lookupPair, if_neg hek, lookupPair, if_neg hek]
        exact ih

/-- Whether the registry entry for `k` currently passes the readiness test. -/
def keyReady (k : String) (s : TrackerState) : Bool :=
  match lookupPair k s.files with
  | some pr => readyPair pr
  | none => false

/-- Registry calls that cannot un-ready the pair keyed `k`: data sightings
with a non-empty path, any checksum sighting, removal of other keys. -/
def BenignFor (k : String) : TrkOp → Prop
  | .data _ p _ => p ≠ ""
  | .chk _ _ => True
  | .rm k' => k' ≠ k

theorem keyReady_trkStep (k : String) (o : TrkOp) (s s' : TrackerState)
    (h : trkStep o s = some s') (hb : BenignFor k o) (hr : keyReady k s = true) :
    keyReady k s' = true := by
  obtain ⟨pr, hl, hready⟩ : ∃ pr, lookupPair k s.files = some pr ∧ readyPair pr = true := by
    unfold keyReady at hr
    cases hl : lookupPair k s.files with
    | some pr => rw [hl] at hr; exact ⟨pr, rfl, hr⟩
    | none => rw [hl] at hr; cases hr
  cases o with
  | data now p n =>
    simp only [trkStep] at h
    injection h with h
    subst h
    unfold keyReady
    simp only [addOrUpdateDataFile]
    by_cases hk : k = goBase p
    · subst hk
      rw [hl]
      rw [lookupPair_updatePair_self, hl, Option.map_some']
      simp only [readyPair] at hready ⊢
      simp only [Bool.and_eq_true] at hready
      have : (p != "") = true := by
        simpa using hb
      simp [hready.1.1, hready.2, this]
    · cases hl0 : lookupPair (goBase p) s.files with
      | some pr0 =>
        rw [lookupPair_updatePair_ne k (goBase p) _ _ hk, hl]
        exact hready
      | none =>
        rw [lookupPair_append_left k pr _ _ hl]
        exact hready
  | chk now q =>
    simp only [trkStep] at h
    by_cases hlen : 7 ≤ (goBaseChars q.data).length
    · have hq : q ≠ "" := by
        intro hq
        subst hq
        revert hlen
        decide
      simp only [addOrUpdateSHA256File, if_pos hlen] at h
      unfold keyReady
      by_cases hk : k = String.mk ((goBaseChars q.data).take ((goBaseChars q.data).length - 7))
      · subst hk
        rw [hl] at h
        injection h with h
        subst h
        rw [lookupPair_updatePair_self, hl, Option.map_some']
        simp only [readyPair] at hready ⊢
        simp only [Bool.and_eq_true] at hready
        have : (q != "") = true := by simpa using hq
        simp [hready.1.2, this]
      · cases hl0 : lookupPair (String.mk ((goBaseChars q.data).take
            ((goBaseChars q.data).length - 7))) s.files with
        | some pr0 =>
          rw [hl0] at h
          injection h with h
          subst h
          rw [lookupPair_updatePair_ne k _ _ _ hk, hl]
          exact hready
        | none =>
          rw [hl0] at h
          injection h with h
          subst h
          rw [lookupPair_append_left k pr _ _ hl]
          exact hready
    · simp only [addOrUpdateSHA256File, if_neg hlen] at h
      cases h
  | rm k' =>
    simp only [trkStep] at h
    injection h with h
    subst h
    unfold keyReady
    simp only [removeKey]
    rw [lookupPair_filter_ne k k' _ (fun hkk => hb hkk.symm), hl]
    exact hready

/-- Readiness of a key survives any successful benign call sequence. -/
theorem keyReady_runTrk (k : String) (ops : List TrkOp) :
    ∀ s s', runTrk ops s = some s' → (∀ o ∈ ops, BenignFor k o) →
      keyReady k s = true → keyReady k s' = true := by
  induction ops with
  | nil =>
    intro s s' h _ hr
    injection h with h
    subst h
    exact hr
  | cons o os ih =>
    intro s s' h hb hr
    simp only [runTrk] at h
    cases ho : trkStep o s with
    | none => rw [ho] at h; cases h
    | some s₁ =>
      rw [ho] at h
      exact ih s₁ s' h (fun o' ho' => hb o' (List.mem_cons_of_mem _ ho'))
        (keyReady_trkStep k o s s₁ ho (hb o (List.mem_cons_self _ _)) hr)

/-- A ready key's pair really is in the `readyForVerification()` snapshot. -/
theorem keyReady_mem_getReady (k : String) (s : TrackerState)
    (h : keyReady k s = true) :
    ∃ pr, lookupPair k s.files = some pr ∧ pr ∈ getReadyForVerification s := by
  unfold keyReady at h
  cases hl : lookupPair k s.files with
  | some pr =>
    rw [hl] at h
    exact ⟨pr, rfl, mem_getReady_of_mem k pr s (mem_of_lookupPair _ _ _ hl) h⟩
  | none => rw [hl] at h; cases h

end FileShaVerifier

namespace FileShaVerifier

/-! ## Provenance of registry entry fields from recorded sightings -/

/-- Is this call a data sighting for key `k`? -/
def isDataOpFor (k : String) : TrkOp → Prop
  | .data _ p _ => goBase p = k
  | _ => False

/-- Is this call a checksum sighting for key `k`? -/
def isChkOpFor (k : String) : TrkOp → Prop
  | .chk _ q => shaKey q = some k
  | _ => False

/-- One step: a non-empty data path comes from a data sighting for that key,
or was already there. -/
theorem trkStep_dataPath_origin (o : TrkOp) (s s₁ : TrackerState)
    (h : trkStep o s = some s₁) (e : String × FilePair) (he : e ∈ s₁.files)
    (hne : e.2.dataFilePath ≠ "") :
    isDataOpFor e.1 o ∨ ∃ e0 ∈ s.files, e0.1 = e.1 ∧ e0.2.dataFilePath ≠ "" := by
  cases o with
  | data now p n =>
    simp only [trkStep] at h
    injection h with h
    subst h
    simp only [addOrUpdateDataFile] at he
    cases hl : lookupPair (goBase p) s.files with
    | some pr0 =>
      rw [hl] at he
      simp only [updatePair] at he
      obtain ⟨a, ha, rfl⟩ := List.mem_map.mp he
      by_cases hak : a.1 = goBase p
      · rw [if_pos hak]
        left
        exact hak.symm
      · rw [if_neg hak] at hne ⊢
        right
        exact ⟨a, ha, rfl, hne⟩
    | none =>
      rw [hl] at he
      rcases List.mem_append.mp he with he' | he'
      · right
        exact ⟨e, he', rfl, hne⟩
      · rcases List.mem_singleton.mp he' with rfl
        left
        exact rfl
  | chk now q =>
    simp only [trkStep] at h
    by_cases hlen : 7 ≤ (goBaseChars q.data).length
    · simp only [addOrUpdateSHA256File, if_pos hlen] at h
      cases hl : lookupPair (String.mk ((goBaseChars q.data).take
          ((goBaseChars q.data).length - 7))) s.files with
      | some pr0 =>
        rw [hl] at h
        injection h with h
        subst h
        simp only [updatePair] at he
        obtain ⟨a, ha, rfl⟩ := List.mem_map.mp he
        by_cases hak : a.1 = String.mk ((goBaseChars q.data).take
            ((goBaseChars q.data).length - 7))
        · rw [if_pos hak] at hne ⊢
          right
          exact ⟨a, ha, rfl, hne⟩
        · rw [if_neg hak] at hne ⊢
          right
          exact ⟨a, ha, rfl, hne⟩
      | none =>
        rw [hl] at h
        injection h with h
        subst h
        rcases List.mem_append.mp he with he' | he'
        · right
          exact ⟨e, he', rfl, hne⟩
        · rcases List.mem_singleton.mp he' with rfl
          exact absurd rfl hne
    · simp only [addOrUpdateSHA256File, if_neg hlen] at h
      cases h
  | rm k' =>
    simp only [trkStep] at h
    injection h with h
    subst h
    right
    exact ⟨e, List.mem_of_mem_filter he, rfl, hne⟩

/-- One step: a non-empty checksum path comes from a checksum sighting for
that key, or was already there. -/
theorem trkStep_shaPath_origin (o : TrkOp) (s s₁ : TrackerState)
    (h : trkStep o s = some s₁) (e : String × FilePair) (he : e ∈ s₁.files)
    (hne : e.2.sha256Path ≠ "") :
    isChkOpFor e.1 o ∨ ∃ e0 ∈ s.files, e0.1 = e.1 ∧ e0.2.sha256Path ≠ "" := by
  cases o with
  | data now p n =>
    simp only [trkStep] at h
    injection h with h
    subst h
    simp only [addOrUpdateDataFile] at he
    cases hl : lookupPair (goBase p) s.files with
    | some pr0 =>
      rw [hl] at he
      simp only [updatePair] at he
      obtain ⟨a, ha, rfl⟩ := List.mem_map.mp he
      by_cases hak : a.1 = goBase p
      · rw [if_pos hak] at hne ⊢
        right
        exact ⟨a, ha, rfl, hne⟩
      · rw [if_neg hak] at hne ⊢
        right
        exact ⟨a, ha, rfl, hne⟩
    | none =>
      rw [hl] at he
      rcases List.mem_append.mp he with he' | he'
      · right
        exact ⟨e, he', rfl, hne⟩
      · rcases List.mem_singleton.mp he' with rfl
        exact absurd rfl hne
  | chk now q =>
    simp only [trkStep] at h
    by_cases hlen : 7 ≤ (goBaseChars q.data).length
    · have hkq : shaKey q = some (String.mk ((goBaseChars q.data).take
          ((goBaseChars q.data).length - 7))) := by
        simp [shaKey, if_pos hlen]
      simp only [addOrUpdateSHA256File, if_pos hlen] at h
      cases hl : lookupPair (String.mk ((goBaseChars q.data).take
          ((goBaseChars q.data).length - 7))) s.files with
      | some pr0 =>
        rw [hl] at h
        injection h with h
        subst h
        simp only [updatePair] at he
        obtain ⟨a, ha, rfl⟩ := List.mem_map.mp he
        by_cases hak : a.1 = String.mk ((goBaseChars q.data).take
            ((goBaseChars q.data).length - 7))
        · rw [if_pos hak]
          left
          show shaKey q = some a.1
          rw [hak]
          exact hkq
        · rw [if_neg hak] at hne ⊢
          right
          exact ⟨a, ha, rfl, hne⟩
      | none =>
        rw [hl] at h
        injection h with h
        subst h
        rcases List.mem_append.mp he with he' | he'
        · right
          exact ⟨e, he', rfl, hne⟩
        · rcases List.mem_singleton.mp he' with rfl
          left
          exact hkq
    · simp only [addOrUpdateSHA256File, if_neg hlen] at h
      cases h
  | rm k' =>
    simp only [trkStep] at h
    injection h with h
    subst h
    right
    exact ⟨e, List.mem_of_mem_filter he, rfl, hne⟩

/-- Whole runs: a non-empty data path needs a data sighting in the trace. -/
theorem runTrk_dataPath_origin (ops : List TrkOp) :
    ∀ s s', runTrk ops s = some s' → ∀ e ∈ s'.files, e.2.dataFilePath ≠ "" →
      (∃ o ∈ ops, isDataOpFor e.1 o)
      ∨ ∃ e0 ∈ s.files, e0.1 = e.1 ∧ e0.2.dataFilePath ≠ "" := by
  induction ops with
  | nil =>
    intro s s' h e he hne
    injection h with h
    subst h
    right
    exact ⟨e, he, rfl, hne⟩
  | cons o os ih =>
    intro s s' h e he hne
    simp only [runTrk] at h
    cases ho : trkStep o s with
    | none => rw [ho] at h; cases h
    | some s₁ =>
      rw [ho] at h
      rcases ih s₁ s' h e he hne with ⟨o', ho', hOp⟩ | ⟨e1, he1, hk1, hne1⟩
      · left
        exact ⟨o', List.mem_cons_of_mem _ ho', hOp⟩
      · rcases trkStep_dataPath_origin o s s₁ ho e1 he1 hne1 with hOp | ⟨e0, he0, hk0, hne0⟩
        · left
          refine ⟨o, List.mem_cons_self _ _, ?_⟩
          rw [← hk1]
          exact hOp
        · right
          exact ⟨e0, he0, hk0.trans hk1, hne0⟩

/-- Whole runs: a non-empty checksum path needs a checksum sighting in the
trace. -/
theorem runTrk_shaPath_origin (ops : List TrkOp) :
    ∀ s s', runTrk ops s = some s' → ∀ e ∈ s'.files, e.2.sha256Path ≠ "" →
      (∃ o ∈ ops, isChkOpFor e.1 o)
      ∨ ∃ e0 ∈ s.files, e0.1 = e.1 ∧ e0.2.sha256Path ≠ "" := by
  induction ops with
  | nil =>
    intro s s' h e he hne
    injection h with h
    subst h
    right
    exact ⟨e, he, rfl, hne⟩
  | cons o os ih =>
    intro s s' h e he hne
    simp only [runTrk] at h
    cases ho : trkStep o s with
    | none => rw [ho] at h; cases h
    | some s₁ =>
      rw [ho] at h
      rcases ih s₁ s' h e he hne with ⟨o', ho', hOp⟩ | ⟨e1, he1, hk1, hne1⟩
      · left
        exact ⟨o', List.mem_cons_of_mem _ ho', hOp⟩
      · rcases trkStep_shaPath_origin o s s₁ ho e1 he1 hne1 with hOp | ⟨e0, he0, hk0, hne0⟩
        · left
          refine ⟨o, List.mem_cons_self _ _, ?_⟩
          rw [← hk1]
          exact hOp
        · right
          exact ⟨e0, he0, hk0.trans hk1, hne0⟩

/-- Every entry's stored `DataFile` equals its map key — one step. -/
theorem trkStep_dataFile_key (o : TrkOp) (s s₁ : TrackerState)
    (h : trkStep o s = some s₁) (hinv : ∀ e ∈ s.files, e.2.dataFile = e.1) :
    ∀ e ∈ s₁.files, e.2.dataFile = e.1 := by
  cases o with
  | data now p n =>
    simp only [trkStep] at h
    injection h with h
    subst h
    intro e he
    simp only [addOrUpdateDataFile] at he
    cases hl : lookupPair (goBase p) s.files with
    | some pr0 =>
      rw [hl] at he
      simp only [updatePair] at he
      obtain ⟨a, ha, rfl⟩ := List.mem_map.mp he
      by_cases hak : a.1 = goBase p
      · rw [if_pos hak]
        exact hinv a ha
      · rw [if_neg hak]
        exact hinv a ha
    | none =>
      rw [hl] at he
      rcases List.mem_append.mp he with he' | he'
      · exact hinv e he'
      · rcases List.mem_singleton.mp he' with rfl
        rfl
  | chk now q =>
    simp only [trkStep] at h
    by_cases hlen : 7 ≤ (goBaseChars q.data).length
    · simp only [addOrUpdateSHA256File, if_pos hlen] at h
      cases hl : lookupPair (String.mk ((goBaseChars q.data).take
          ((goBaseChars q.data).length - 7))) s.files with
      | some pr0 =>
        rw [hl] at h
        injection h with h
        subst h
        intro e he
        simp only [updatePair] at he
        obtain ⟨a, ha, rfl⟩ := List.mem_map.mp he
        by_cases hak : a.1 = String.mk ((goBaseChars q.data).take
            ((goBaseChars q.data).length - 7))
        · rw [if_pos hak]
          exact hinv a ha
        · rw [if_neg hak]
          exact hinv a ha
      | none =>
        rw [hl] at h
        injection h with h
        subst h
        intro e he
        rcases List.mem_append.mp he with he' | he'
        · exact hinv e he'
        · rcases List.mem_singleton.mp he' with rfl
          rfl
    · simp only [addOrUpdateSHA256File, if_neg hlen] at h
      cases h
  | rm k' =>
    simp only [trkStep] at h
    injection h with h
    subst h
    intro e he
    exact hinv e (List.mem_of_mem_filter he)

/-- Every entry's stored `DataFile` equals its map key — whole runs. -/
theorem runTrk_dataFile_key (ops : List TrkOp) :
    ∀ s s', runTrk ops s = some s' → (∀ e ∈ s.files, e.2.dataFile = e.1) →
      ∀ e ∈ s'.files, e.2.dataFile = e.1 := by
  induction ops with
  | nil =>
    intro s s' h hinv
    injection h with h
    subst h
    exact hinv
  | cons o os ih =>
    intro s s' h hinv
    simp only [runTrk] at h
    cases ho : trkStep o s with
    | none => rw [ho] at h; cases h
    | some s₁ =>
      rw [ho] at h
      exact ih s₁ s' h (trkStep_dataFile_key o s s₁ ho hinv)

/-- Decompose membership in the ready snapshot. -/
theorem mem_getReady_elim (pr : FilePair) (s : TrackerState)
    (h : pr ∈ getReadyForVerification s) :
    ∃ e ∈ s.files, e.2 = pr ∧ readyPair pr = true := by
  unfold getReadyForVerification at h
  obtain ⟨e, hef, rfl⟩ := List.mem_map.mp h
  obtain ⟨hmem, hready⟩ := List.mem_filter.mp hef
  exact ⟨e, hmem, rfl, hready⟩

end FileShaVerifier

namespace FileShaVerifier

/-- C5 (amended): (a) a pair whose data half is recorded before its checksum
half enters the `readyForVerification()` snapshot; (b) it stays there across
any further benign calls (data sightings with non-empty paths, checksum
sightings, removals of other keys) until it is removed; (c) no pair appears
in the snapshot before both a data and a checksum sighting for its key have
been recorded. (Checksum-before-data does not enter the snapshot — see the
counterexample.) -/
theorem ready_set_membership :
    (∀ (now now' n : Int) (p q : String) (s s' : TrackerState),
        p ≠ "" → shaKey q = some (goBase p) →
        addOrUpdateSHA256File now' q (addOrUpdateDataFile now p n s) = some s' →
        keyReady (goBase p) s' = true
        ∧ ∃ pr, lookupPair (goBase p) s'.files = some pr
            ∧ pr ∈ getReadyForVerification s')
    ∧ (∀ (k : String) (ops : List TrkOp) (s s' : TrackerState),
        runTrk ops s = some s' → (∀ o ∈ ops, BenignFor k o) → keyReady k s = true →
        ∃ pr, lookupPair k s'.files = some pr ∧ pr ∈ getReadyForVerification s')
    ∧ (∀ (rt : Int) (ops : List TrkOp) (s : TrackerState),
        runTrk ops (emptyTracker rt) = some s →
        ∀ pr ∈ getReadyForVerification s,
          (∃ o ∈ ops, isDataOpFor pr.dataFile o)
          ∧ ∃ o ∈ ops, isChkOpFor pr.dataFile o) := by
  refine ⟨?_, ?_, ?_⟩
  · intro now now' n p q s s' hp hq hstep
    obtain ⟨pr1, hl1, hdp⟩ := lookupPair_addDataFile_self now n p s
    have hlook := addSHA_lookup_some now' q (goBase p) _ s' pr1 hq hl1 hstep
    have hq' : q ≠ "" := shaKey_ne_empty q (goBase p) hq
    have hready : keyReady (goBase p) s' = true := by
      unfold keyReady
      rw [hlook]
      simp [readyPair, hdp, hp, hq']
    exact ⟨hready, keyReady_mem_getReady _ _ hready⟩
  · intro k ops s s' hrun hb hr
    exact keyReady_mem_getReady k s' (keyReady_runTrk k ops s s' hrun hb hr)
  · intro rt ops s hrun pr hpr
    obtain ⟨e, hmem, heq, hready⟩ := mem_getReady_elim pr s hpr
    subst heq
    have hkey : e.2.dataFile = e.1 :=
      runTrk_dataFile_key ops (emptyTracker rt) s hrun (fun x hx => absurd hx
        (List.not_mem_nil x)) e hmem
    simp only [readyPair, Bool.and_eq_true] at hready
    have hdp : e.2.dataFilePath ≠ "" := by simpa using hready.1.2
    have hsp : e.2.sha256Path ≠ "" := by simpa using hready.2
    constructor
    · rcases runTrk_dataPath_origin ops (emptyTracker rt) s hrun e hmem hdp with
        h | ⟨e0, he0, _, _⟩
      · rw [hkey]
        exact h
      · exact absurd he0 (List.not_mem_nil e0)
    · rcases runTrk_shaPath_origin ops (emptyTracker rt) s hrun e hmem hsp with
        h | ⟨e0, he0, _, _⟩
      · rw [hkey]
        exact h
      · exact absurd he0 (List.not_mem_nil e0)

/-- The registry after `recordData("w.bin", 7)` then
`recordChecksum("w.bin.sha256")` on a fresh tracker. -/
def c5PairS : TrackerState :=
  { files := [("w.bin",
      { dataFile := "w.bin", dataFilePath := "w.bin", sha256File := "w.bin.sha256",
        sha256Path := "w.bin.sha256", dataSize := 7, firstSeen := 0, hasBothFiles := true })],
    retryTimeout := 2 }

/-- The ready pair stored in `c5PairS`. -/
def c5Pr : FilePair :=
  { dataFile := "w.bin", dataFilePath := "w.bin", sha256File := "w.bin.sha256",
    sha256Path := "w.bin.sha256", dataSize := 7, firstSeen := 0, hasBothFiles := true }

/-- C5 witness: all three parts of the membership theorem at concrete traces
over `w.bin`. -/
theorem ready_set_membership_witness :
    (keyReady (goBase "w.bin") c5PairS = true
      ∧ ∃ pr, lookupPair (goBase "w.bin") c5PairS.files = some pr
          ∧ pr ∈ getReadyForVerification c5PairS)
    ∧ (∃ pr, lookupPair "w.bin" c5PairS.files = some pr
        ∧ pr ∈ getReadyForVerification c5PairS)
    ∧ ((∃ o ∈ [TrkOp.data 0 "w.bin" 7, TrkOp.chk 1 "w.bin.sha256"],
          isDataOpFor c5Pr.dataFile o)
      ∧ ∃ o ∈ [TrkOp.data 0 "w.bin" 7, TrkOp.chk 1 "w.bin.sha256"],
          isChkOpFor c5Pr.dataFile o) :=
  ⟨ready_set_membership.1 0 1 7 "w.bin" "w.bin.sha256" (emptyTracker 2) c5PairS
      (by decide) (by decide) (by decide),
   ready_set_membership.2.1 "w.bin" [TrkOp.rm "z.bin"] c5PairS c5PairS (by decide)
      (fun o ho => by
        rcases List.mem_singleton.mp ho with rfl
        exact (by decide : ("z.bin" : String) ≠ "w.bin"))
      (by decide),
   ready_set_membership.2.2 2 [TrkOp.data 0 "w.bin" 7, TrkOp.chk 1 "w.bin.sha256"]
      c5PairS (by decide) c5Pr (by decide)⟩

end FileShaVerifier

namespace FileShaVerifier

/-! ## Character-level facts about Go lowercasing and hex digits -/

/-- A lowercase hex digit, the alphabet `hex.EncodeToString` emits. -/
abbrev isLowerHexChar (c : Char) : Prop :=
  ('0' ≤ c ∧ c ≤ '9') ∨ ('a' ≤ c ∧ c ≤ 'f')

theorem char_le_iff_toNat (a b : Char) : a ≤ b ↔ a.toNat ≤ b.toNat :=
  Iff.rfl

theorem toNat_char_ofNat_valid (n : Nat) (h : n < 0xD800) :
    (Char.ofNat n).toNat = n := by
  have hv : n.isValidChar := Or.inl h
  simp only [Char.ofNat, dif_pos hv]
  rfl

theorem goToLowerChar_idem (c : Char) :
    goToLowerChar (goToLowerChar c) = goToLowerChar c := by
  unfold goToLowerChar
  by_cases h : 'A' ≤ c ∧ c ≤ 'Z'
  · rw [if_pos h]
    have hA : 65 ≤ c.toNat := (char_le_iff_toNat 'A' c).mp h.1
    have hZ : c.toNat ≤ 90 := (char_le_iff_toNat c 'Z').mp h.2
    have ht : (Char.ofNat (c.toNat + 32)).toNat = c.toNat + 32 :=
      toNat_char_ofNat_valid _ (by omega)
    rw [if_neg]
    rintro ⟨_, h2⟩
    have h90 : (Char.ofNat (c.toNat + 32)).toNat ≤ 90 := (char_le_iff_toNat _ 'Z').mp h2
    rw [ht] at h90
    omega
  · rw [if_neg h, if_neg h]

theorem goToLowerChar_eq_self_of_lower_hex (c : Char) (h : isLowerHexChar c) :
    goToLowerChar c = c := by
  unfold goToLowerChar
  rw [if_neg]
  rintro ⟨h1, h2⟩
  have hA : 65 ≤ c.toNat := (char_le_iff_toNat 'A' c).mp h1
  have hZ : c.toNat ≤ 90 := (char_le_iff_toNat c 'Z').mp h2
  rcases h with ⟨g1, g2⟩ | ⟨g1, g2⟩
  · have : c.toNat ≤ 57 := (char_le_iff_toNat c '9').mp g2
    omega
  · have : 97 ≤ c.toNat := (char_le_iff_toNat 'a' c).mp g1
    omega

theorem goIsHexDigit_of_lower_hex (c : Char) (h : isLowerHexChar c) :
    goIsHexDigit c = true := by
  unfold goIsHexDigit
  rcases h with h | h
  · exact decide_eq_true (Or.inl h)
  · exact decide_eq_true (Or.inr (Or.inl h))

theorem goToLower_idem (l : List Char) : goToLower (goToLower l) = goToLower l := by
  unfold goToLower
  rw [List.map_map]
  exact List.map_congr_left fun a _ => goToLowerChar_idem a

theorem goToLower_eq_self_of_lower_hex (l : List Char) (h : ∀ c ∈ l, isLowerHexChar c) :
    goToLower l = l := by
  induction l with
  | nil => rfl
  | cons c cs ih =>
    unfold goToLower
    simp only [List.map_cons]
    rw [goToLowerChar_eq_self_of_lower_hex c (h c (List.mem_cons_self _ _))]
    have := ih (fun x hx => h x (List.mem_cons_of_mem _ hx))
    unfold goToLower at this
    rw [this]

theorem all_goIsHexDigit_of_lower_hex (l : List Char) (h : ∀ c ∈ l, isLowerHexChar c) :
    l.all goIsHexDigit = true :=
  List.all_eq_true.mpr fun c hc => goIsHexDigit_of_lower_hex c (h c hc)

/-! ## `strings.Fields` ignores surrounding white space -/

theorem goFieldsAux_all_spaces (ws : List Char) (hws : ∀ c ∈ ws, goIsSpace c = true) :
    ∀ acc, goFieldsAux ws acc = if acc.isEmpty then [] else [acc.reverse] := by
  induction ws with
  | nil => intro acc; rfl
  | cons c cs ih =>
    intro acc
    have hc : goIsSpace c = true := hws c (List.mem_cons_self _ _)
    have ihs := ih (fun x hx => hws x (List.mem_cons_of_mem _ hx))
    simp only [goFieldsAux, hc, if_true]
    by_cases ha : acc.isEmpty
    · rw [if_pos ha, if_pos ha, ihs []]
      rfl
    · rw [if_neg ha, if_neg ha, ihs []]
      rfl

theorem goFieldsAux_append_spaces (ws : List Char) (hws : ∀ c ∈ ws, goIsSpace c = true) :
    ∀ (xs acc : List Char), goFieldsAux (xs ++ ws) acc = goFieldsAux xs acc := by
  intro xs
  induction xs with
  | nil =>
    intro acc
    rw [List.nil_append, goFieldsAux_all_spaces ws hws acc]
    rfl
  | cons x xs ih =>
    intro acc
    simp only [List.cons_append, goFieldsAux]
    by_cases hx : goIsSpace x
    · rw [hx]
      simp only [if_true]
      by_cases ha : acc.isEmpty
      · rw [if_pos ha, if_pos ha]
        exact ih []
      · rw [if_neg ha, if_neg ha]
        exact congrArg _ (ih [])
    · rw [Bool.not_eq_true] at hx
      rw [hx]
      simp only [Bool.false_eq_true, if_false]
      exact ih (x :: acc)

theorem goFields_trimRight (s : List Char) : goFields (goTrimRight s) = goFields s := by
  have hsplit : goTrimRight s ++ (s.reverse.takeWhile goIsSpace).reverse = s := by
    unfold goTrimRight
    rw [← List.reverse_append, List.takeWhile_append_dropWhile, List.reverse_reverse]
  have hws : ∀ c ∈ (s.reverse.takeWhile goIsSpace).reverse, goIsSpace c = true := by
    intro c hc
    exact List.mem_takeWhile_imp (List.mem_reverse.mp hc)
  conv_rhs => rw [← hsplit]
  unfold goFields
  rw [goFieldsAux_append_spaces _ hws]

theorem goFields_trimLeft (s : List Char) : goFields (goTrimLeft s) = goFields s := by
  unfold goFields goTrimLeft
  induction s with
  | nil => rfl
  | cons c cs ih =>
    by_cases hc : goIsSpace c
    · rw [List.dropWhile_cons_of_pos hc, ih]
      simp [goFieldsAux, hc]
    · rw [List.dropWhile_cons_of_neg hc]

theorem goFields_trimSpace (s : List Char) : goFields (goTrimSpace s) = goFields s := by
  unfold goTrimSpace
  rw [goFields_trimLeft, goFields_trimRight]

end FileShaVerifier

namespace FileShaVerifier

/-- Characterization of a successful checksum-file parse: some first token,
whose lowercase form (the returned hash) is exactly 64 characters that
`hex.DecodeString` accepts. -/
theorem readSHA256Content_ok_iff (content hash : List Char) :
    readSHA256Content content = .ok hash ↔
      ∃ t rest, goFields content = t :: rest ∧ goToLower t = hash ∧
        (goToLower t).length = 64 ∧ (goToLower t).all goIsHexDigit = true := by
  unfold readSHA256Content
  by_cases hT : (goTrimSpace content).isEmpty
  · rw [if_pos hT]
    have hfe : goFields content = [] := by
      rw [← goFields_trimSpace, List.isEmpty_iff.mp hT]
      rfl
    simp [hfe]
  · rw [if_neg hT]
    rw [goFields_trimSpace content]
    cases hf : goFields content with
    | nil =>
      simp
    | cons t rest =>
      simp only []
      by_cases h64 : (goToLower t).length ≠ 64
      · rw [if_pos h64]
        constructor
        · intro h
          cases h
        · rintro ⟨t', rest', heq, hlow, hlen, hhx⟩
          injection heq with h1 h2
          subst h1
          exact absurd hlen h64
      · have h64' : (goToLower t).length = 64 := not_ne_iff.mp h64
        rw [if_neg h64]
        by_cases hhx : (goToLower t).all goIsHexDigit = true
        · have hcond : (!((goToLower t).length % 2 == 0 && (goToLower t).all goIsHexDigit))
              = false := by
            rw [h64', hhx]
            rfl
          rw [hcond]
          simp only [Bool.false_eq_true, if_false]
          constructor
          · intro h
            injection h with h
            exact ⟨t, rest, rfl, h, h64', hhx⟩
          · rintro ⟨t', rest', heq, hlow, hlen, hx2⟩
            injection heq with h1 h2
            subst h1
            rw [hlow]
        · have hhx' : (goToLower t).all goIsHexDigit = false := by
            rwa [Bool.not_eq_true] at hhx
          have hcond : (!((goToLower t).length % 2 == 0 && (goToLower t).all goIsHexDigit))
              = true := by
            rw [hhx']
            simp
          rw [hcond]
          simp only [if_true]
          constructor
          · intro h
            cases h
          · rintro ⟨t', rest', heq, hlow, hlen, hx2⟩
            injection heq with h1 h2
            subst h1
            exact absurd hx2 hhx

/-- C7: for a computed digest in the alphabet `hex.EncodeToString` produces
(64 lowercase hex characters), verification succeeds exactly when the
lowercase of the first whitespace-delimited token of the checksum-file
content equals the digest; every other content — empty, a short or non-hex
token — makes `verifyFileOk` return false (the embedding is total, so no
crash is possible). -/
theorem verify_matches_first_token (content computed : List Char)
    (hlen : computed.length = 64)
    (hhex : ∀ c ∈ computed, isLowerHexChar c) :
    verifyFileOk content computed = true
      ↔ (goFields content).head?.map goToLower = some computed := by
  have hfix : goToLower computed = computed := goToLower_eq_self_of_lower_hex computed hhex
  unfold verifyFileOk
  cases hr : readSHA256Content content with
  | error e =>
    constructor
    · intro h
      cases h
    · intro h
      cases hfld : goFields content with
      | nil =>
        rw [hfld] at h
        cases h
      | cons t rest =>
        rw [hfld] at h
        simp only [List.head?_cons, Option.map_some'] at h
        injection h with h
        have hok : readSHA256Content content = .ok computed := by
          rw [readSHA256Content_ok_iff]
          refine ⟨t, rest, hfld, h, ?_, ?_⟩
          · rw [h, hlen]
          · rw [h]
            exact all_goIsHexDigit_of_lower_hex computed hhex
        rw [hr] at hok
        cases hok
  | ok expected =>
    obtain ⟨t, rest, hfld, hlow, hl64, hx⟩ := (readSHA256Content_ok_iff content expected).mp hr
    rw [hfld]
    simp only [List.head?_cons, Option.map_some']
    rw [hlow]
    constructor
    · intro hb
      have hcc : goToLower computed = goToLower expected := by
        simpa using hb
      rw [hfix] at hcc
      rw [← hlow, goToLower_idem, hlow] at hcc
      rw [hcc]
    · intro hs
      injection hs with hs
      rw [hs]
      simp

/-- C7 witness: a checksum file holding 64 uppercase `A`s followed by a file
name verifies against the computed digest of 64 lowercase `a`s. -/
theorem verify_matches_first_token_witness :
    verifyFileOk (List.replicate 64 'A' ++ " data.zip".data) (List.replicate 64 'a')
      = true :=
  (verify_matches_first_token (List.replicate 64 'A' ++ " data.zip".data)
      (List.replicate 64 'a') (by decide) (by decide)).mpr (by decide)

end FileShaVerifier
